import Mathlib

/-!
Verification of the ts-stocks quote fetch/parse core and alert loop.

Strings are modelled as `List Char` (`Str`), so that the JavaScript string
operations used by the source (`trim`, `split`, `indexOf`, `parseFloat`)
become structurally recursive Lean functions amenable to induction.
Numbers are modelled as `ℚ`: the source manipulates decimal text and
compares prices, and every decimal literal is exactly representable.
-/

abbrev Str := List Char

/-- Whitespace as recognised by JavaScript `String.prototype.trim` and
`parseFloat` (WhiteSpace ∪ LineTerminator): space, tab, LF, CR, VT, FF,
NBSP, the Unicode space separators, LS, PS and the BOM. -/
def wsChar (c : Char) : Bool :=
  c = ' ' || c = '\t' || c = '\n' || c = '\r' || c = '\u000B' || c = '\u000C' ||
  c = ' ' || c = ' ' || (' ' ≤ c && c ≤ ' ') ||
  c = ' ' || c = ' ' || c = ' ' || c = ' ' ||
  c = '　' || c = '﻿'

/-- Left part of JS `trim`: drop leading whitespace. -/
def trimLeft (s : Str) : Str := s.dropWhile wsChar

/-- Right part of JS `trim`: drop trailing whitespace. -/
def trimRight (s : Str) : Str := (s.reverse.dropWhile wsChar).reverse

/-- JS `String.prototype.trim`: drop whitespace at both ends. -/
def trim (s : Str) : Str := trimLeft (trimRight s)

/-- JS `String.prototype.split` with a one-character separator:
`"".split(sep) = [""]`, separators at either end produce empty segments. -/
def splitStr (sep : Char) : Str → List Str
  | [] => [[]]
  | x :: xs =>
    if x = sep then [] :: splitStr sep xs
    else
      match splitStr sep xs with
      | [] => [[x]]
      | h :: t => (x :: h) :: t

/-- JS `Array.prototype.indexOf` on an array of strings: index of the first
exactly-equal element, `none` standing for JavaScript's `-1`. -/
def idxOf (target : Str) : List Str → Option Nat
  | [] => none
  | c :: cs => if c = target then some 0 else (idxOf target cs).map (fun n => n + 1)

/-- Numeric value of a digit string (most significant digit first). -/
def digitsVal (ds : List Char) : Nat :=
  ds.foldl (fun a c => a * 10 + (c.toNat - '0'.toNat)) 0

/-- Power of ten in `ℚ` with a natural exponent, by plain recursion. -/
def powTenNat : Nat → ℚ
  | 0 => 1
  | n + 1 => 10 * powTenNat n

/-- Power of ten in `ℚ` with an integer exponent. -/
def powTenInt : Int → ℚ
  | Int.ofNat n => powTenNat n
  | Int.negSucc n => 1 / powTenNat (n + 1)

/-- Exponent part after the `e`/`E` marker: optional sign then digits; an
incomplete exponent (no digits) contributes a factor of `10 ^ 0`, matching
`parseFloat`'s longest-valid-prefix rule (`"1e" → 1`). -/
def parseExpTail (s : List Char) : Int :=
  match s with
  | '+' :: ds =>
    let d := ds.takeWhile Char.isDigit
    if d.isEmpty then 0 else (digitsVal d : Int)
  | '-' :: ds =>
    let d := ds.takeWhile Char.isDigit
    if d.isEmpty then 0 else -(digitsVal d : Int)
  | ds =>
    let d := ds.takeWhile Char.isDigit
    if d.isEmpty then 0 else (digitsVal d : Int)

/-- Exponent marker dispatch: `e` or `E`, else exponent `0`. -/
def parseExp (s : List Char) : Int :=
  match s with
  | 'e' :: rest => parseExpTail rest
  | 'E' :: rest => parseExpTail rest
  | _ => 0

/-- Unsigned decimal literal prefix: `digits [. digits] [exp]` or
`. digits [exp]`; `none` when no digit is found (JS `NaN`). -/
def parseMantissa (s : List Char) : Option ℚ :=
  let ip := s.takeWhile Char.isDigit
  let rest := s.dropWhile Char.isDigit
  if ip.isEmpty then
    match rest with
    | '.' :: r2 =>
      let fp := r2.takeWhile Char.isDigit
      if fp.isEmpty then none
      else some ((digitsVal fp : ℚ) / powTenNat fp.length *
        powTenInt (parseExp (r2.dropWhile Char.isDigit)))
    | _ => none
  else
    match rest with
    | '.' :: r2 =>
      let fp := r2.takeWhile Char.isDigit
      some (((digitsVal ip : ℚ) + (digitsVal fp : ℚ) / powTenNat fp.length) *
        powTenInt (parseExp (r2.dropWhile Char.isDigit)))
    | _ => some ((digitsVal ip : ℚ) * powTenInt (parseExp rest))

/-- JS `parseFloat` over the decimal grammar: skip leading whitespace, parse
the longest `[+-] digits [. digits] [e[+-]digits]` prefix, ignore any
trailing garbage; `none` stands for `NaN` (no parseable prefix). The IEEE
`Infinity` branch of `parseFloat` has no rational counterpart and is not
exercised by any claim; it is outside this model. -/
def parseFloat (s : Str) : Option ℚ :=
  let t := s.dropWhile wsChar
  match t with
  | '+' :: r => parseMantissa r
  | '-' :: r => (parseMantissa r).map (fun q => -q)
  | _ => parseMantissa t

/-- The seven parser failure reasons of `fetchQuote` (src/stooq.ts 39-102),
in the spec's names. -/
inductive ParseError where
  | emptyResponse
  | malformedStructure
  | missingColumn
  | invalidSymbol
  | missingTimestamp
  | missingPrice
  | invalidPrice
deriving DecidableEq

/-- The quote record returned by `fetchQuote` (src/stooq.ts 105-110). -/
structure Quote where
  symbol : Str
  date : Str
  time : Str
  close : ℚ
deriving DecidableEq

instance : DecidableEq (Except ParseError Quote) := fun a b =>
  match a, b with
  | .error e₁, .error e₂ => if h : e₁ = e₂ then .isTrue (by rw [h]) else .isFalse (by simp [h])
  | .ok q₁, .ok q₂ => if h : q₁ = q₂ then .isTrue (by rw [h]) else .isFalse (by simp [h])
  | .error _, .ok _ => .isFalse (by simp)
  | .ok _, .error _ => .isFalse (by simp)

/-- The sentinel string `"N/A"` (src/stooq.ts 79, 90). -/
def nA : Str := "N/A".toList

/-- Required header column `"Symbol"` (src/stooq.ts 56). -/
def columnSymbol : Str := "Symbol".toList

/-- Required header column `"Date"` (src/stooq.ts 57). -/
def columnDate : Str := "Date".toList

/-- Required header column `"Time"` (src/stooq.ts 58). -/
def columnTime : Str := "Time".toList

/-- Required header column `"Close"` (src/stooq.ts 59). -/
def columnClose : Str := "Close".toList

/-- Data-row field extraction `dataRow[i]?.trim()` (src/stooq.ts 72-75):
`none` when the index is out of range (JS `undefined`), otherwise the
trimmed field. -/
def fieldValue (dataRow : List Str) (i : Nat) : Option Str :=
  (dataRow.get? i).map trim

/-- Field validation and the final numeric parse (src/stooq.ts 77-110),
applied to the four extracted field values. A `none`/empty value is JS-falsy;
`v.length === 0` in the source is subsumed by `!v` and kept here as the
`= some []` disjunct. -/
def validateFields (symbolValue dateValue timeValue closeValue : Option Str) :
    Except ParseError Quote :=
  if symbolValue = none ∨ symbolValue = some [] ∨ symbolValue = some nA then
    .error .invalidSymbol
  else if dateValue = none ∨ dateValue = some [] ∨ timeValue = none ∨ timeValue = some [] then
    .error .missingTimestamp
  else if closeValue = none ∨ closeValue = some [] ∨ closeValue = some nA then
    .error .missingPrice
  else
    match parseFloat (closeValue.getD []) with
    | none => .error .invalidPrice
    | some closeNumber =>
      .ok ⟨symbolValue.getD [], dateValue.getD [], timeValue.getD [], closeNumber⟩

/-- Header/data-row stage of `fetchQuote` (src/stooq.ts 53-110): split the
header on commas, locate the four required columns by exact string match
(`indexOf`), fail with `missingColumn` when any is absent (`=== -1`), then
split the data row and validate the extracted fields. -/
def parseQuoteLines (l0 l1 : Str) : Except ParseError Quote :=
  let header := splitStr ',' l0
  let symbolIndex := idxOf columnSymbol header
  let dateIndex := idxOf columnDate header
  let timeIndex := idxOf columnTime header
  let closeIndex := idxOf columnClose header
  if symbolIndex = none ∨ dateIndex = none ∨ timeIndex = none ∨ closeIndex = none then
    .error .missingColumn
  else
    let dataRow := splitStr ',' l1
    validateFields
      (fieldValue dataRow (symbolIndex.getD 0))
      (fieldValue dataRow (dateIndex.getD 0))
      (fieldValue dataRow (timeIndex.getD 0))
      (fieldValue dataRow (closeIndex.getD 0))

/-- Line splitting `csvText.trim().split("\n")` (src/stooq.ts 44). -/
def linesOf (csvText : Str) : List Str := splitStr '\n' (trim csvText)

/-- The whole parsing stage of `fetchQuote` (src/stooq.ts 39-110): empty
check, line-count check, then header/data-row parsing on `lines[0]` and
`lines[1]`. -/
def parseQuote (csvText : Str) : Except ParseError Quote :=
  if (trim csvText).isEmpty then .error .emptyResponse
  else
    let lines := linesOf csvText
    if lines.length < 2 then .error .malformedStructure
    else parseQuoteLines (lines.getD 0 []) (lines.getD 1 [])

/-- Failures of the fetch wrapper around the parser (src/stooq.ts 19-36). -/
inductive FetchError where
  | emptySymbol
  | httpError (status : Nat)
  | parseFailure (e : ParseError)
deriving DecidableEq

/-- Fetch wrapper `fetchQuote` (src/stooq.ts 15-111) with the network call abstracted as
its outcome: an HTTP status error or a response body. The empty-symbol check
precedes any network access; a non-ok status fails with `httpError`;
otherwise the body goes to the parser unchanged. -/
def fetchQuote (symbol : Str) (response : Except Nat Str) : Except FetchError Quote :=
  if (trim symbol).isEmpty then .error .emptySymbol
  else
    match response with
    | .error status => .error (.httpError status)
    | .ok body =>
      match parseQuote body with
      | .error e => .error (.parseFailure e)
      | .ok q => .ok q

/-- Alert direction (src/alert.ts 15). -/
inductive Direction where
  | above
  | below
deriving DecidableEq

/-- Alert configuration (src/alert.ts 25-30). -/
structure AlertConfig where
  symbol : Str
  target : ℚ
  direction : Direction
  intervalMs : ℚ
deriving DecidableEq

/-- Threshold predicate of the loop body (src/alert.ts 76-84): for `above`
crossed when `currentPrice >= target`, for `below` when
`currentPrice <= target`. -/
def thresholdCrossed (direction : Direction) (currentPrice target : ℚ) : Bool :=
  match direction with
  | .above => decide (currentPrice ≥ target)
  | .below => decide (currentPrice ≤ target)

/-- Observable side effects of one pass through the loop body
(src/alert.ts 62-109): the fetch attempt, the per-cycle price log, the
one-time alert notification, the logged error on a failed cycle, and the
interval sleep. -/
inductive LoopEvent where
  | fetchAttempt
  | statusLog (date time : Str) (price : ℚ)
  | alertNotify (price target : ℚ)
  | errorLog
  | sleep (ms : ℚ)
deriving DecidableEq

/-- Outcome of a `runAlert` run over a finite prefix of fetch outcomes:
rejected configuration, alert triggered on some quote, or still polling
when the modelled outcome sequence is exhausted. -/
inductive AlertResult where
  | configError
  | triggered (q : Quote)
  | polling
deriving DecidableEq

/-- The `while (true)` polling loop of `runAlert` (src/alert.ts 62-109),
driven by a finite list of fetch outcomes (each `await fetchQuote(symbol)`
either returns a quote or throws). A failed cycle logs the error and sleeps
a full interval; a successful cycle logs the price, then either notifies and
breaks (threshold crossed) or sleeps a full interval and continues. An empty
remaining list leaves the loop still polling. -/
def runAlertLoop (cfg : AlertConfig) : List (Except FetchError Quote) → List LoopEvent × AlertResult
  | [] => ([], .polling)
  | .error _ :: rest =>
    let next := runAlertLoop cfg rest
    (.fetchAttempt :: .errorLog :: .sleep cfg.intervalMs :: next.1, next.2)
  | .ok q :: rest =>
    if thresholdCrossed cfg.direction q.close cfg.target then
      ([.fetchAttempt, .statusLog q.date q.time q.close, .alertNotify q.close cfg.target],
        .triggered q)
    else
      let next := runAlertLoop cfg rest
      (.fetchAttempt :: .statusLog q.date q.time q.close :: .sleep cfg.intervalMs :: next.1,
        next.2)

/-- Entry of `runAlert` (src/alert.ts 45-109): configuration validation
(`intervalMs <= 0`, then `target <= 0`) before the polling loop starts. -/
def runAlert (cfg : AlertConfig) (outcomes : List (Except FetchError Quote)) :
    List LoopEvent × AlertResult :=
  if cfg.intervalMs ≤ 0 then ([], .configError)
  else if cfg.target ≤ 0 then ([], .configError)
  else runAlertLoop cfg outcomes

/-- Modelled from the spec: the state machine's terminal transition, "the
loop transitions to TRIGGERED exactly at the first successful quote whose
close crosses the threshold". Written from the spec's words, to be compared
with `runAlertLoop`. -/
def firstTrigger (cfg : AlertConfig) : List (Except FetchError Quote) → Option Quote
  | [] => none
  | .error _ :: rest => firstTrigger cfg rest
  | .ok q :: rest =>
    if thresholdCrossed cfg.direction q.close cfg.target then some q
    else firstTrigger cfg rest

/-- Header cells of the first line, `lines[0].split(",")` (src/stooq.ts 55). -/
abbrev headerCells (t : Str) : List Str := splitStr ',' ((linesOf t).getD 0 [])

/-- Index of the `Symbol` column in the header (src/stooq.ts 56). -/
abbrev symbolIdxOf (t : Str) : Option Nat := idxOf columnSymbol (headerCells t)

/-- Index of the `Date` column in the header (src/stooq.ts 57). -/
abbrev dateIdxOf (t : Str) : Option Nat := idxOf columnDate (headerCells t)

/-- Index of the `Time` column in the header (src/stooq.ts 58). -/
abbrev timeIdxOf (t : Str) : Option Nat := idxOf columnTime (headerCells t)

/-- Index of the `Close` column in the header (src/stooq.ts 59). -/
abbrev closeIdxOf (t : Str) : Option Nat := idxOf columnClose (headerCells t)

/-- Data-row cells of the second line, `lines[1].split(",")` (src/stooq.ts 69). -/
abbrev rowCells (t : Str) : List Str := splitStr ',' ((linesOf t).getD 1 [])

/-- Extracted Symbol field `dataRow[symbolIndex]?.trim()` (src/stooq.ts 72). -/
abbrev symbolValOf (t : Str) : Option Str := fieldValue (rowCells t) ((symbolIdxOf t).getD 0)

/-- Extracted Date field `dataRow[dateIndex]?.trim()` (src/stooq.ts 73). -/
abbrev dateValOf (t : Str) : Option Str := fieldValue (rowCells t) ((dateIdxOf t).getD 0)

/-- Extracted Time field `dataRow[timeIndex]?.trim()` (src/stooq.ts 74). -/
abbrev timeValOf (t : Str) : Option Str := fieldValue (rowCells t) ((timeIdxOf t).getD 0)

/-- Extracted Close field `dataRow[closeIndex]?.trim()` (src/stooq.ts 75). -/
abbrev closeValOf (t : Str) : Option Str := fieldValue (rowCells t) ((closeIdxOf t).getD 0)

/-- Failure reason 1, EmptyResponse (src/stooq.ts 39): blank after trimming. -/
abbrev condEmpty (t : Str) : Prop := (trim t).isEmpty = true

/-- Failure reason 2, MalformedStructure (src/stooq.ts 47): fewer than 2 lines. -/
abbrev condMalformed (t : Str) : Prop := (linesOf t).length < 2

/-- Failure reason 3, MissingColumn (src/stooq.ts 62): a required column absent. -/
abbrev condMissingColumn (t : Str) : Prop :=
  symbolIdxOf t = none ∨ dateIdxOf t = none ∨ timeIdxOf t = none ∨ closeIdxOf t = none

/-- Failure reason 4, InvalidSymbol (src/stooq.ts 79): Symbol field absent,
empty, or the sentinel. -/
abbrev condInvalidSymbol (t : Str) : Prop :=
  symbolValOf t = none ∨ symbolValOf t = some [] ∨ symbolValOf t = some nA

/-- Failure reason 5, MissingTimestamp (src/stooq.ts 84): Date or Time field
absent or empty. -/
abbrev condMissingTimestamp (t : Str) : Prop :=
  dateValOf t = none ∨ dateValOf t = some [] ∨ timeValOf t = none ∨ timeValOf t = some []

/-- Failure reason 6, MissingPrice (src/stooq.ts 90): Close field absent,
empty, or the sentinel. -/
abbrev condMissingPrice (t : Str) : Prop :=
  closeValOf t = none ∨ closeValOf t = some [] ∨ closeValOf t = some nA

/-- Failure reason 7, InvalidPrice (src/stooq.ts 98): Close field does not
parse to a number. -/
abbrev condInvalidPrice (t : Str) : Prop := parseFloat ((closeValOf t).getD []) = none

unseal Rat.mul Rat.inv Rat.add Rat.sub Rat.ofScientific

/-! Helper lemmas about the string primitives. -/

theorem splitStr_ne_nil (sep : Char) (s : Str) : splitStr sep s ≠ [] := by
  cases s with
  | nil => simp [splitStr]
  | cons x xs =>
    simp only [splitStr]
    split
    · simp
    · split <;> simp

theorem parseQuote_eq_chain (t : Str) :
    parseQuote t =
      if condEmpty t then .error .emptyResponse
      else if condMalformed t then .error .malformedStructure
      else if condMissingColumn t then .error .missingColumn
      else if condInvalidSymbol t then .error .invalidSymbol
      else if condMissingTimestamp t then .error .missingTimestamp
      else if condMissingPrice t then .error .missingPrice
      else
        match parseFloat ((closeValOf t).getD []) with
        | none => .error .invalidPrice
        | some c =>
          .ok ⟨(symbolValOf t).getD [], (dateValOf t).getD [], (timeValOf t).getD [], c⟩ := by
  rfl

theorem parseQuote_cons (t l0 l1 : Str) (rest : List Str)
    (h : linesOf t = l0 :: l1 :: rest) :
    parseQuote t = parseQuoteLines l0 l1 := by
  have hne : (trim t).isEmpty = false := by
    cases he : trim t with
    | nil =>
      rw [linesOf, he] at h
      simp [splitStr] at h
    | cons c cs => rfl
  unfold parseQuote
  rw [hne]
  simp only [Bool.false_eq_true, if_false, h]
  rfl

/-- Claim C4: the threshold predicate holds for direction ABOVE iff
close ≥ target, for BELOW iff close ≤ target; a close exactly equal to the
target counts as crossed for both directions. -/
theorem claim4_thresholdPredicate (close target : ℚ) :
    (thresholdCrossed .above close target = true ↔ close ≥ target) ∧
    (thresholdCrossed .below close target = true ↔ close ≤ target) ∧
    thresholdCrossed .above target target = true ∧
    thresholdCrossed .below target target = true := by
  refine ⟨?_, ?_, ?_, ?_⟩ <;> simp [thresholdCrossed]

/-- Claim C7: a configuration with intervalMs ≤ 0 or target ≤ 0 is rejected
by runAlert's validation, yielding a configuration error with an empty event
trace — so the polling loop is never entered and no fetch occurs. -/
theorem claim7_configValidation (cfg : AlertConfig)
    (outcomes : List (Except FetchError Quote))
    (h : cfg.intervalMs ≤ 0 ∨ cfg.target ≤ 0) :
    runAlert cfg outcomes = ([], .configError) := by
  unfold runAlert
  rcases h with h | h
  · rw [if_pos h]
  · by_cases hi : cfg.intervalMs ≤ 0
    · rw [if_pos hi]
    · rw [if_neg hi, if_pos h]

/-- Witness for C7: the config with intervalMs = -1 is rejected before any
fetch. -/
theorem claim7_configValidation_witness :
    runAlert ⟨"AAPL.US".toList, 100, .above, -1⟩ [] = ([], .configError) :=
  claim7_configValidation _ _ (Or.inl (by norm_num))

/-- Counterexample for C2 as stated: the body consisting of a single space
is one line under every reading (it contains no newline, and the parser's
own line split yields exactly one line), yet parsing fails with
EmptyResponse, not MalformedStructure. -/
theorem claim2_oneLine_counterexample :
    ('\n' ∉ " ".toList) ∧ (linesOf " ".toList).length = 1 ∧
    parseQuote " ".toList = .error .emptyResponse ∧
    parseQuote " ".toList ≠ .error .malformedStructure := by decide

/-- Claim C2 (amended): parsing a body with only one line fails with
MalformedStructure regardless of the line's content, provided the body is
not blank after trimming (a blank body fails earlier with EmptyResponse). -/
theorem claim2_oneLine_malformed (t : Str)
    (h1 : (linesOf t).length = 1) (h2 : trim t ≠ []) :
    parseQuote t = .error .malformedStructure := by
  have hne : (trim t).isEmpty = false := by
    cases ht : trim t with
    | nil => exact absurd ht h2
    | cons a l => rfl
  simp [parseQuote, hne, h1]

/-- Witness for C2 (amended): a one-line body of ordinary content. -/
theorem claim2_oneLine_malformed_witness :
    parseQuote "hello".toList = .error .malformedStructure :=
  claim2_oneLine_malformed _ (by decide) (by decide)

/-- Claim C10: header cells are matched raw, without trimming: whenever no
comma-split header cell is exactly "Close", the two-line parse fails with
MissingColumn — in particular a header cell " Close" with surrounding
whitespace fails — whereas data-row fields are trimmed, so a data row with
padded fields still parses. -/
theorem claim10_headerNotTrimmed :
    (∀ l0 l1 : Str, idxOf columnClose (splitStr ',' l0) = none →
      parseQuoteLines l0 l1 = .error .missingColumn) ∧
    parseQuote "Symbol,Date,Time, Close\nAAPL.US,2024-01-02,16:00:00,185.64".toList
      = .error .missingColumn ∧
    parseQuote "Symbol,Date,Time,Close\n AAPL.US , 2024-01-02 , 16:00:00 , 185.64".toList
      = .ok ⟨"AAPL.US".toList, "2024-01-02".toList, "16:00:00".toList, 18564 / 100⟩ := by
  refine ⟨?_, by decide, by decide⟩
  intro l0 l1 h
  simp only [parseQuoteLines]
  rw [if_pos (Or.inr (Or.inr (Or.inr h)))]

/-- Witness for C10 at the padded header cell " Close". -/
theorem claim10_headerNotTrimmed_witness :
    parseQuoteLines "Symbol,Date,Time, Close".toList "X,1,2,3".toList
      = .error .missingColumn :=
  claim10_headerNotTrimmed.1 _ _ (by decide)

theorem fieldValue_eq_none (row : List Str) (i : Nat) :
    fieldValue row i = none ↔ row.length ≤ i := by
  simp [fieldValue, List.get?_eq_none]

/-- Claim C3: the parser checks its seven failure reasons in the stated
priority order (EmptyResponse, MalformedStructure, MissingColumn,
InvalidSymbol, MissingTimestamp, MissingPrice, InvalidPrice) and fails with
the first that applies; a header omitting "Close" fails with MissingColumn
even when the data row holds a parseable price, and the data row
"N/A,N/A,N/A,N/A" under a complete header fails with InvalidSymbol. -/
theorem claim3_priorityOrder :
    (∀ t : Str, condEmpty t → parseQuote t = .error .emptyResponse) ∧
    (∀ t : Str, ¬condEmpty t → condMalformed t →
      parseQuote t = .error .malformedStructure) ∧
    (∀ t : Str, ¬condEmpty t → ¬condMalformed t → condMissingColumn t →
      parseQuote t = .error .missingColumn) ∧
    (∀ t : Str, ¬condEmpty t → ¬condMalformed t → ¬condMissingColumn t →
      condInvalidSymbol t → parseQuote t = .error .invalidSymbol) ∧
    (∀ t : Str, ¬condEmpty t → ¬condMalformed t → ¬condMissingColumn t →
      ¬condInvalidSymbol t → condMissingTimestamp t →
      parseQuote t = .error .missingTimestamp) ∧
    (∀ t : Str, ¬condEmpty t → ¬condMalformed t → ¬condMissingColumn t →
      ¬condInvalidSymbol t → ¬condMissingTimestamp t → condMissingPrice t →
      parseQuote t = .error .missingPrice) ∧
    (∀ t : Str, ¬condEmpty t → ¬condMalformed t → ¬condMissingColumn t →
      ¬condInvalidSymbol t → ¬condMissingTimestamp t → ¬condMissingPrice t →
      condInvalidPrice t → parseQuote t = .error .invalidPrice) ∧
    (∀ t : Str, ¬condEmpty t → ¬condMalformed t → ¬condMissingColumn t →
      ¬condInvalidSymbol t → ¬condMissingTimestamp t → ¬condMissingPrice t →
      ¬condInvalidPrice t → ∃ q : Quote, parseQuote t = .ok q) ∧
    parseQuote "Symbol,Date,Time,Open\nAAPL.US,2024-01-02,16:00:00,185.64".toList
      = .error .missingColumn ∧
    parseQuote "Symbol,Date,Time,Close\nN/A,N/A,N/A,N/A".toList
      = .error .invalidSymbol := by
  refine ⟨?_, ?_, ?_, ?_, ?_, ?_, ?_, ?_, by decide, by decide⟩
  · intro t h1
    rw [parseQuote_eq_chain, if_pos h1]
  · intro t h1 h2
    rw [parseQuote_eq_chain, if_neg h1, if_pos h2]
  · intro t h1 h2 h3
    rw [parseQuote_eq_chain, if_neg h1, if_neg h2, if_pos h3]
  · intro t h1 h2 h3 h4
    rw [parseQuote_eq_chain, if_neg h1, if_neg h2, if_neg h3, if_pos h4]
  · intro t h1 h2 h3 h4 h5
    rw [parseQuote_eq_chain, if_neg h1, if_neg h2, if_neg h3, if_neg h4, if_pos h5]
  · intro t h1 h2 h3 h4 h5 h6
    rw [parseQuote_eq_chain, if_neg h1, if_neg h2, if_neg h3, if_neg h4, if_neg h5,
      if_pos h6]
  · intro t h1 h2 h3 h4 h5 h6 h7
    rw [parseQuote_eq_chain, if_neg h1, if_neg h2, if_neg h3, if_neg h4, if_neg h5,
      if_neg h6, h7]
  · intro t h1 h2 h3 h4 h5 h6 h7
    rcases hq : parseFloat ((closeValOf t).getD []) with _ | c
    · exact absurd hq h7
    · exact ⟨⟨(symbolValOf t).getD [], (dateValOf t).getD [], (timeValOf t).getD [], c⟩,
        by rw [parseQuote_eq_chain, if_neg h1, if_neg h2, if_neg h3, if_neg h4, if_neg h5,
          if_neg h6, hq]⟩

/-- Witness for C3: the InvalidSymbol scenario reached through the priority
chain. -/
theorem claim3_priorityOrder_witness :
    parseQuote "Symbol,Date,Time,Close\nN/A,N/A,N/A,N/A".toList
      = .error .invalidSymbol :=
  claim3_priorityOrder.2.2.2.1 _ (by decide) (by decide) (by decide) (by decide)

/-- Counterexample for C1 as stated: a parseable negative close is accepted,
so a successful parse does not guarantee close > 0. -/
theorem claim1_positiveClose_counterexample :
    parseQuote "Symbol,Date,Time,Close\nX,2024-01-02,16:00:00,-5".toList
      = .ok ⟨"X".toList, "2024-01-02".toList, "16:00:00".toList, -5⟩ ∧
    ¬ (0 : ℚ) < -5 := by decide

/-- Claim C1 (amended): on every successful parse, the close field of the
returned Quote is the exact rational value produced by the tolerant numeric
parse of the (present, non-empty, non-sentinel) Close cell — a well-defined
number, but not necessarily positive. -/
theorem claim1_closeIsParsedNumber (t : Str) (q : Quote)
    (h : parseQuote t = .ok q) :
    ∃ cv : Str, closeValOf t = some cv ∧ cv ≠ [] ∧ cv ≠ nA ∧
      parseFloat cv = some q.close := by
  rw [parseQuote_eq_chain] at h
  by_cases h1 : condEmpty t
  · rw [if_pos h1] at h; exact absurd h (by simp)
  rw [if_neg h1] at h
  by_cases h2 : condMalformed t
  · rw [if_pos h2] at h; exact absurd h (by simp)
  rw [if_neg h2] at h
  by_cases h3 : condMissingColumn t
  · rw [if_pos h3] at h; exact absurd h (by simp)
  rw [if_neg h3] at h
  by_cases h4 : condInvalidSymbol t
  · rw [if_pos h4] at h; exact absurd h (by simp)
  rw [if_neg h4] at h
  by_cases h5 : condMissingTimestamp t
  · rw [if_pos h5] at h; exact absurd h (by simp)
  rw [if_neg h5] at h
  by_cases h6 : condMissingPrice t
  · rw [if_pos h6] at h; exact absurd h (by simp)
  rw [if_neg h6] at h
  have h6' : ¬(closeValOf t = none ∨ closeValOf t = some [] ∨ closeValOf t = some nA) := h6
  push_neg at h6'
  obtain ⟨hn, hne, hna⟩ := h6'
  rcases hcv : closeValOf t with _ | cv
  · exact absurd hcv hn
  rcases hp : parseFloat ((closeValOf t).getD []) with _ | c
  · rw [hp] at h; exact absurd h (by simp)
  rw [hp] at h
  injection h with h'
  refine ⟨cv, rfl, ?_, ?_, ?_⟩
  · intro hc; exact hne (by rw [hcv, hc])
  · intro hc; exact hna (by rw [hcv, hc])
  · rw [hcv, Option.getD_some] at hp
    rw [hp, ← h']

/-- Witness for C1 (amended) at the negative-close input. -/
theorem claim1_closeIsParsedNumber_witness :
    ∃ cv : Str, closeValOf "Symbol,Date,Time,Close\nX,2024-01-02,16:00:00,-5".toList
        = some cv ∧ cv ≠ [] ∧ cv ≠ nA ∧ parseFloat cv = some (-5 : ℚ) :=
  claim1_closeIsParsedNumber _
    ⟨"X".toList, "2024-01-02".toList, "16:00:00".toList, -5⟩ (by decide)

/-- Claim C6: every 2-line input with a complete header whose extracted data
fields are present, non-empty and non-sentinel, and whose Close field has a
tolerant numeric value, parses to a Quote carrying the trimmed fields and
that value; in particular the AAPL.US scenario yields exactly
Quote(AAPL.US, 2024-01-02, 16:00:00, 185.64). -/
theorem claim6_validTwoLineParse :
    (∀ (csvText l0 l1 : Str) (rest : List Str) (si di ti ci : Nat)
        (sv dv tv cv : Str) (q : ℚ),
      linesOf csvText = l0 :: l1 :: rest →
      idxOf columnSymbol (splitStr ',' l0) = some si →
      idxOf columnDate (splitStr ',' l0) = some di →
      idxOf columnTime (splitStr ',' l0) = some ti →
      idxOf columnClose (splitStr ',' l0) = some ci →
      fieldValue (splitStr ',' l1) si = some sv → sv ≠ [] → sv ≠ nA →
      fieldValue (splitStr ',' l1) di = some dv → dv ≠ [] →
      fieldValue (splitStr ',' l1) ti = some tv → tv ≠ [] →
      fieldValue (splitStr ',' l1) ci = some cv → cv ≠ [] → cv ≠ nA →
      parseFloat cv = some q →
      parseQuote csvText = .ok ⟨sv, dv, tv, q⟩) ∧
    parseQuote "Symbol,Date,Time,Close\nAAPL.US,2024-01-02,16:00:00,185.64".toList
      = .ok ⟨"AAPL.US".toList, "2024-01-02".toList, "16:00:00".toList, 18564 / 100⟩ := by
  refine ⟨?_, by decide⟩
  intro csvText l0 l1 rest si di ti ci sv dv tv cv q hlines hsi hdi hti hci
    hsv hsv1 hsv2 hdv hdv1 htv htv1 hcv hcv1 hcv2 hq
  rw [parseQuote_cons csvText l0 l1 rest hlines]
  simp only [parseQuoteLines, hsi, hdi, hti, hci, Option.getD_some]
  rw [if_neg (by simp)]
  rw [hsv, hdv, htv, hcv]
  unfold validateFields
  rw [if_neg (by simp [hsv1, hsv2]), if_neg (by simp [hdv1, htv1]),
    if_neg (by simp [hcv1, hcv2])]
  simp only [Option.getD_some]
  rw [hq]

/-- Witness for C6 at the AAPL.US scenario. -/
theorem claim6_validTwoLineParse_witness :
    parseQuote "Symbol,Date,Time,Close\nAAPL.US,2024-01-02,16:00:00,185.64".toList
      = .ok ⟨"AAPL.US".toList, "2024-01-02".toList, "16:00:00".toList, 18564 / 100⟩ :=
  claim6_validTwoLineParse.1 _ "Symbol,Date,Time,Close".toList
    "AAPL.US,2024-01-02,16:00:00,185.64".toList [] 0 1 2 3
    "AAPL.US".toList "2024-01-02".toList "16:00:00".toList "185.64".toList
    (18564 / 100) (by decide) (by decide) (by decide) (by decide) (by decide)
    (by decide) (by decide) (by decide) (by decide) (by decide) (by decide)
    (by decide) (by decide) (by decide) (by decide) (by decide)

/-- Claim C9: when the data row has fewer comma-separated fields than some
required column's header index, field extraction is total: the parser
returns one of the missing-field failures (InvalidSymbol, MissingTimestamp
or MissingPrice — the first whose field is affected, per checking order)
rather than crashing on out-of-range indexing. -/
theorem claim9_shortRowTotal (l0 l1 : Str) (si di ti ci : Nat)
    (hsi : idxOf columnSymbol (splitStr ',' l0) = some si)
    (hdi : idxOf columnDate (splitStr ',' l0) = some di)
    (hti : idxOf columnTime (splitStr ',' l0) = some ti)
    (hci : idxOf columnClose (splitStr ',' l0) = some ci)
    (hshort : (splitStr ',' l1).length ≤ si ∨ (splitStr ',' l1).length ≤ di ∨
      (splitStr ',' l1).length ≤ ti ∨ (splitStr ',' l1).length ≤ ci) :
    parseQuoteLines l0 l1 = .error .invalidSymbol ∨
    parseQuoteLines l0 l1 = .error .missingTimestamp ∨
    parseQuoteLines l0 l1 = .error .missingPrice := by
  simp only [parseQuoteLines, hsi, hdi, hti, hci, Option.getD_some]
  rw [if_neg (by simp)]
  unfold validateFields
  by_cases h1 : fieldValue (splitStr ',' l1) si = none ∨
      fieldValue (splitStr ',' l1) si = some [] ∨
      fieldValue (splitStr ',' l1) si = some nA
  · left; rw [if_pos h1]
  rw [if_neg h1]
  by_cases h2 : fieldValue (splitStr ',' l1) di = none ∨
      fieldValue (splitStr ',' l1) di = some [] ∨
      fieldValue (splitStr ',' l1) ti = none ∨
      fieldValue (splitStr ',' l1) ti = some []
  · right; left; rw [if_pos h2]
  rw [if_neg h2]
  by_cases h3 : fieldValue (splitStr ',' l1) ci = none ∨
      fieldValue (splitStr ',' l1) ci = some [] ∨
      fieldValue (splitStr ',' l1) ci = some nA
  · right; right; rw [if_pos h3]
  exfalso
  push_neg at h1 h2 h3
  have hs : si < (splitStr ',' l1).length := by
    have := h1.1
    rw [Ne, fieldValue_eq_none] at this
    omega
  have hd : di < (splitStr ',' l1).length := by
    have := h2.1
    rw [Ne, fieldValue_eq_none] at this
    omega
  have ht : ti < (splitStr ',' l1).length := by
    have := h2.2.2.1
    rw [Ne, fieldValue_eq_none] at this
    omega
  have hc : ci < (splitStr ',' l1).length := by
    have := h3.1
    rw [Ne, fieldValue_eq_none] at this
    omega
  omega

/-- Witness for C9: a one-field data row under the four-column header fails
with MissingTimestamp (Symbol present, Date index out of range). -/
theorem claim9_shortRowTotal_witness :
    parseQuoteLines "Symbol,Date,Time,Close".toList "AAPL.US".toList
        = .error .invalidSymbol ∨
    parseQuoteLines "Symbol,Date,Time,Close".toList "AAPL.US".toList
        = .error .missingTimestamp ∨
    parseQuoteLines "Symbol,Date,Time,Close".toList "AAPL.US".toList
        = .error .missingPrice :=
  claim9_shortRowTotal _ _ 0 1 2 3 (by decide) (by decide) (by decide) (by decide)
    (by decide)

/-- Claim C5: with a valid configuration, the alert loop (i) reaches the
terminal TRIGGERED state exactly at the first successful quote whose close
crosses the threshold — and keeps POLLING when no observed outcome crosses,
there being no maximum retry count; (ii) on a fetch/parse failure logs the
error, sleeps a full interval, and continues exactly as if the failed cycle
had not occurred; and (iii) in the BELOW/target-100 scenario with closes
105, 102, 99 triggers on the third observation only. -/
theorem claim5_loopStateMachine (cfg : AlertConfig)
    (hInt : 0 < cfg.intervalMs) (hTgt : 0 < cfg.target) :
    (∀ outcomes : List (Except FetchError Quote),
      (runAlert cfg outcomes).2 =
        match firstTrigger cfg outcomes with
        | some q => .triggered q
        | none => .polling) ∧
    (∀ (e : FetchError) (rest : List (Except FetchError Quote)),
      runAlert cfg (.error e :: rest) =
        (.fetchAttempt :: .errorLog :: .sleep cfg.intervalMs :: (runAlert cfg rest).1,
          (runAlert cfg rest).2)) ∧
    (runAlert ⟨"X".toList, 100, .below, 1000⟩
        [.ok ⟨"X".toList, [], [], 105⟩, .ok ⟨"X".toList, [], [], 102⟩,
          .ok ⟨"X".toList, [], [], 99⟩]).2
      = .triggered ⟨"X".toList, [], [], 99⟩ ∧
    (runAlert ⟨"X".toList, 100, .below, 1000⟩ [.ok ⟨"X".toList, [], [], 105⟩]).2
      = .polling ∧
    (runAlert ⟨"X".toList, 100, .below, 1000⟩
        [.ok ⟨"X".toList, [], [], 105⟩, .ok ⟨"X".toList, [], [], 102⟩]).2
      = .polling := by
  have hi : ¬ cfg.intervalMs ≤ 0 := not_le.mpr hInt
  have ht : ¬ cfg.target ≤ 0 := not_le.mpr hTgt
  refine ⟨?_, ?_, by decide, by decide, by decide⟩
  · intro outcomes
    simp only [runAlert, if_neg hi, if_neg ht]
    induction outcomes with
    | nil => rfl
    | cons o rest ih =>
      cases o with
      | error e => simpa [runAlertLoop, firstTrigger] using ih
      | ok q =>
        by_cases hc : thresholdCrossed cfg.direction q.close cfg.target
        · simp [runAlertLoop, firstTrigger, hc]
        · simp only [runAlertLoop, firstTrigger, Bool.not_eq_true] at *
          rw [hc] at *
          simpa using ih
  · intro e rest
    simp only [runAlert, if_neg hi, if_neg ht]
    rfl

/-- Witness for C5: the BELOW/100 scenario triggering on the third
observation. -/
theorem claim5_loopStateMachine_witness :
    (runAlert ⟨"X".toList, 100, .below, 1000⟩
        [.ok ⟨"X".toList, [], [], 105⟩, .ok ⟨"X".toList, [], [], 102⟩,
          .ok ⟨"X".toList, [], [], 99⟩]).2
      = .triggered ⟨"X".toList, [], [], 99⟩ :=
  (claim5_loopStateMachine ⟨"X".toList, 100, .below, 1000⟩ (by norm_num)
    (by norm_num)).2.2.1

/-! Helper lemmas for the first-two-lines property: how `trim` and
`splitStr` interact with whitespace-only suffixes. -/

theorem dropWhile_ws_append (a b : Str) (h : ∀ c ∈ a, wsChar c = true) :
    (a ++ b).dropWhile wsChar = b.dropWhile wsChar := by
  induction a with
  | nil => rfl
  | cons x xs ih =>
    rw [List.cons_append, List.dropWhile_cons, if_pos (h x (List.mem_cons_self x xs))]
    exact ih fun c hc => h c (List.mem_cons_of_mem _ hc)

theorem dropWhile_cons_false {x : Char} {xs : Str} (h : wsChar x = false) :
    (x :: xs).dropWhile wsChar = x :: xs := by
  rw [List.dropWhile_cons, if_neg (by simp [h])]

theorem mem_takeWhile_ws {l : Str} {c : Char} (h : c ∈ l.takeWhile wsChar) :
    wsChar c = true := by
  induction l with
  | nil => cases h
  | cons x xs ih =>
    rw [List.takeWhile_cons] at h
    by_cases hx : wsChar x = true
    · rw [if_pos hx] at h
      rcases List.mem_cons.mp h with rfl | h
      · exact hx
      · exact ih h
    · rw [if_neg hx] at h
      cases h

theorem all_of_dropWhile_nil (l : Str) (h : l.dropWhile wsChar = [])
    (d : Char) (hd : d ∈ l) : wsChar d = true := by
  induction l with
  | nil => cases hd
  | cons y ys ih =>
    rw [List.dropWhile_cons] at h
    by_cases hy : wsChar y = true
    · rw [if_pos hy] at h
      rcases List.mem_cons.mp hd with rfl | hd
      · exact hy
      · exact ih h hd
    · rw [if_neg hy] at h
      cases h

theorem dropWhile_head_false (l : Str) :
    l.dropWhile wsChar = [] ∨
      ∃ x xs, l.dropWhile wsChar = x :: xs ∧ wsChar x = false := by
  induction l with
  | nil => left; rfl
  | cons y ys ih =>
    rw [List.dropWhile_cons]
    by_cases hy : wsChar y = true
    · rw [if_pos hy]; exact ih
    · rw [if_neg hy]
      right
      exact ⟨y, ys, rfl, by simpa using hy⟩

theorem trimRight_append_ws (a w : Str) (h : ∀ c ∈ w, wsChar c = true) :
    trimRight (a ++ w) = trimRight a := by
  unfold trimRight
  rw [List.reverse_append]
  rw [dropWhile_ws_append _ _ fun c hc => h c (List.mem_reverse.mp hc)]

theorem trimRight_last_false (xs : Str) (x : Char) (h : wsChar x = false) :
    trimRight (xs ++ [x]) = xs ++ [x] := by
  unfold trimRight
  rw [List.reverse_append]
  simp only [List.reverse_cons, List.reverse_nil, List.nil_append, List.singleton_append]
  rw [dropWhile_cons_false h]
  simp

theorem trim_append_ws (a w : Str) (h : ∀ c ∈ w, wsChar c = true) :
    trim (a ++ w) = trim a := by
  unfold trim
  rw [trimRight_append_ws a w h]

theorem trimRight_decomp (s : Str) :
    ∃ w : Str, s = trimRight s ++ w ∧ ∀ c ∈ w, wsChar c = true := by
  refine ⟨(s.reverse.takeWhile wsChar).reverse, ?_, ?_⟩
  · conv_lhs => rw [← List.reverse_reverse s,
      ← List.takeWhile_append_dropWhile (p := wsChar) (l := s.reverse),
      List.reverse_append]
    rfl
  · intro c hc
    exact mem_takeWhile_ws (List.mem_reverse.mp hc)

theorem trimRight_ne_nil (s : Str) (h : ∃ c ∈ s, wsChar c = false) :
    ∃ a x, trimRight s = a ++ [x] ∧ wsChar x = false := by
  rcases dropWhile_head_false s.reverse with h0 | ⟨x, xs, hx, hxf⟩
  · exfalso
    obtain ⟨c, hc, hcf⟩ := h
    have := all_of_dropWhile_nil s.reverse h0 c (List.mem_reverse.mpr hc)
    rw [this] at hcf
    cases hcf
  · refine ⟨xs.reverse, x, ?_, hxf⟩
    unfold trimRight
    rw [hx]
    simp

theorem trim_head_false (s : Str) (c : Char) (cs : Str) (h : trim s = c :: cs) :
    wsChar c = false := by
  unfold trim trimLeft at h
  rcases dropWhile_head_false (trimRight s) with h0 | ⟨x, xs, hx, hxf⟩
  · rw [h0] at h; cases h
  · rw [hx] at h
    injection h with h1 h2
    rw [← h1]
    exact hxf

theorem splitStr_sep_not_mem (sep : Char) (s : Str) :
    ∀ seg ∈ splitStr sep s, sep ∉ seg := by
  induction s with
  | nil =>
    intro seg hseg
    simp only [splitStr, List.mem_singleton] at hseg
    rw [hseg]
    exact List.not_mem_nil sep
  | cons x xs ih =>
    intro seg hseg
    simp only [splitStr] at hseg
    by_cases hx : x = sep
    · rw [if_pos hx] at hseg
      rcases List.mem_cons.mp hseg with rfl | hseg
      · exact List.not_mem_nil sep
      · exact ih seg hseg
    · rw [if_neg hx] at hseg
      rcases hsp : splitStr sep xs with _ | ⟨h0, t0⟩
      · exact absurd hsp (splitStr_ne_nil sep xs)
      · rw [hsp] at hseg
        rcases List.mem_cons.mp hseg with rfl | hseg
        · intro hmem
          rcases List.mem_cons.mp hmem with hsx | hmem
          · exact hx hsx.symm
          · exact ih h0 (by rw [hsp]; exact List.mem_cons_self _ _) hmem
        · exact ih seg (by rw [hsp]; exact List.mem_cons_of_mem _ hseg)

theorem splitStr_not_mem (sep : Char) (s : Str) (h : sep ∉ s) :
    splitStr sep s = [s] := by
  induction s with
  | nil => rfl
  | cons x xs ih =>
    simp only [splitStr]
    rw [if_neg fun hx => h (List.mem_cons.mpr (Or.inl hx.symm))]
    rw [ih fun hm => h (List.mem_cons_of_mem _ hm)]

theorem splitStr_append_cons (sep : Char) (l0 rest : Str) (h : sep ∉ l0) :
    splitStr sep (l0 ++ sep :: rest) = l0 :: splitStr sep rest := by
  induction l0 with
  | nil =>
    rw [List.nil_append]
    simp [splitStr]
  | cons x xs ih =>
    have hx : ¬ x = sep := fun hx => h (List.mem_cons.mpr (Or.inl hx.symm))
    rw [List.cons_append]
    simp only [splitStr]
    rw [if_neg hx, ih fun hm => h (List.mem_cons_of_mem _ hm)]

theorem splitStr_head_decomp (sep : Char) (s a : Str) (as : List Str)
    (h : splitStr sep s = a :: as) :
    (as = [] ∧ s = a) ∨
      ∃ tail, s = a ++ sep :: tail ∧ splitStr sep tail = as := by
  induction s generalizing a as with
  | nil =>
    simp only [splitStr] at h
    injection h with h1 h2
    left
    exact ⟨h2.symm, h1⟩
  | cons x xs ih =>
    simp only [splitStr] at h
    by_cases hx : x = sep
    · rw [if_pos hx] at h
      injection h with h1 h2
      right
      refine ⟨xs, ?_, h2⟩
      rw [← h1, hx]
      rfl
    · rw [if_neg hx] at h
      rcases hsp : splitStr sep xs with _ | ⟨h0, t0⟩
      · exact absurd hsp (splitStr_ne_nil sep xs)
      rw [hsp] at h
      injection h with h1 h2
      rcases ih h0 t0 hsp with ⟨ht0, hxs⟩ | ⟨tail, hxs, hts⟩
      · left
        constructor
        · rw [← h2, ht0]
        · rw [← h1, hxs]
      · right
        refine ⟨tail, ?_, ?_⟩
        · rw [← h1, hxs]
          rfl
        · rw [hts, h2]

theorem splitStr_append_ws (sep : Char) (u w : Str) (hw : sep ∉ w) :
    ∃ pre lastU, splitStr sep u = pre ++ [lastU] ∧
      splitStr sep (u ++ w) = pre ++ [lastU ++ w] := by
  induction u with
  | nil =>
    refine ⟨[], [], rfl, ?_⟩
    rw [List.nil_append, splitStr_not_mem sep w hw]
    rfl
  | cons x xs ih =>
    obtain ⟨pre, lastU, h1, h2⟩ := ih
    by_cases hx : x = sep
    · refine ⟨[] :: pre, lastU, ?_, ?_⟩
      · simp only [splitStr, if_pos hx, h1]
        rfl
      · rw [List.cons_append]
        simp only [splitStr, if_pos hx, h2]
        rfl
    · rcases pre with _ | ⟨p0, ps⟩
      · refine ⟨[], x :: lastU, ?_, ?_⟩
        · simp only [splitStr, if_neg hx]
          rw [List.nil_append] at h1
          rw [h1]
          rfl
        · rw [List.cons_append]
          simp only [splitStr, if_neg hx]
          rw [List.nil_append] at h2
          rw [h2]
          simp
      · refine ⟨(x :: p0) :: ps, lastU, ?_, ?_⟩
        · simp only [splitStr, if_neg hx]
          rw [h1]
          rfl
        · rw [List.cons_append]
          simp only [splitStr, if_neg hx]
          rw [h2]
          rfl

theorem fieldValue_append_ws (u w : Str) (hw : ∀ c ∈ w, wsChar c = true) (i : Nat) :
    fieldValue (splitStr ',' (u ++ w)) i = fieldValue (splitStr ',' u) i := by
  have hsep : (',' : Char) ∉ w := fun hm => by
    have := hw ',' hm
    exact absurd this (by decide)
  obtain ⟨pre, lastU, h1, h2⟩ := splitStr_append_ws ',' u w hsep
  rw [h1, h2]
  unfold fieldValue
  rcases lt_trichotomy i pre.length with hi | hi | hi
  · rw [List.get?_append hi, List.get?_append hi]
  · rw [hi, List.get?_append_right (le_refl _), List.get?_append_right (le_refl _)]
    simp only [Nat.sub_self]
    simp only [List.get?, Option.map_some']
    rw [trim_append_ws lastU w hw]
  · have hge : pre.length ≤ i := le_of_lt hi
    rw [List.get?_append_right hge, List.get?_append_right hge]
    have hnone : ∀ z : Str, [z].get? (i - pre.length) = none := by
      intro z
      rw [List.get?_eq_none]
      simp only [List.length_singleton]
      omega
    rw [hnone, hnone]

theorem parseQuoteLines_congr (l0 a b : Str)
    (h : ∀ i, fieldValue (splitStr ',' a) i = fieldValue (splitStr ',' b) i) :
    parseQuoteLines l0 a = parseQuoteLines l0 b := by
  simp only [parseQuoteLines]
  split
  · rfl
  · rw [h, h, h, h]

/-- Claim C8 (amended): parsing the full text equals parsing just its first
two lines (joined by a newline) whenever the second line contains at least
one non-whitespace character; a whitespace-only second line collapses under
the truncated text's trimming, so the truncated parse fails with
MalformedStructure while the full parse consults the blank second line. -/
theorem claim8_firstTwoLines (t l0 l1 : Str) (rest : List Str)
    (hlines : linesOf t = l0 :: l1 :: rest)
    (hl1 : ∃ c ∈ l1, wsChar c = false) :
    parseQuote t = parseQuote (l0 ++ '\n' :: l1) := by
  rw [parseQuote_cons t l0 l1 rest hlines]
  have hsp := splitStr_head_decomp '\n' (trim t) l0 (l1 :: rest) hlines
  have hl0head : ∃ x l0', l0 = x :: l0' ∧ wsChar x = false := by
    rcases hsp with ⟨habs, _⟩ | ⟨tail, htt, _⟩
    · cases habs
    · rcases hl0 : l0 with _ | ⟨x, l0'⟩
      · exfalso
        rw [hl0] at htt
        have := trim_head_false t '\n' tail (by rw [htt]; rfl)
        exact absurd this (by decide)
      · refine ⟨x, l0', rfl, ?_⟩
        rw [hl0] at htt
        exact trim_head_false t x (l0' ++ '\n' :: tail) (by rw [htt]; rfl)
  have hmem0 : l0 ∈ linesOf t := by
    rw [hlines]
    exact List.mem_cons_self _ _
  have hmem1 : l1 ∈ linesOf t := by
    rw [hlines]
    exact List.mem_cons_of_mem _ (List.mem_cons_self _ _)
  have hnl0 : '\n' ∉ l0 := splitStr_sep_not_mem '\n' (trim t) l0 hmem0
  have hnl1 : '\n' ∉ l1 := splitStr_sep_not_mem '\n' (trim t) l1 hmem1
  obtain ⟨w, hw, hws⟩ := trimRight_decomp l1
  obtain ⟨a2, x2, htr, hx2⟩ := trimRight_ne_nil l1 hl1
  obtain ⟨x0, l0', hl0, hx0⟩ := hl0head
  have htrim : trim (l0 ++ '\n' :: l1) = l0 ++ '\n' :: trimRight l1 := by
    have h1 : trimRight (l0 ++ '\n' :: l1) = l0 ++ '\n' :: trimRight l1 := by
      conv_lhs => rw [hw]
      rw [show l0 ++ '\n' :: (trimRight l1 ++ w) = (l0 ++ '\n' :: trimRight l1) ++ w by
        simp]
      rw [trimRight_append_ws _ _ hws, htr]
      rw [show l0 ++ '\n' :: (a2 ++ [x2]) = (l0 ++ '\n' :: a2) ++ [x2] by simp]
      rw [trimRight_last_false _ _ hx2]
    unfold trim
    rw [h1, hl0]
    simp only [List.cons_append]
    unfold trimLeft
    rw [dropWhile_cons_false hx0]
  have hlines2 : linesOf (l0 ++ '\n' :: l1) = l0 :: trimRight l1 :: [] := by
    unfold linesOf
    rw [htrim, splitStr_append_cons '\n' l0 (trimRight l1) hnl0]
    rw [splitStr_not_mem '\n' (trimRight l1)
      fun hm => hnl1 (hw.symm ▸ List.mem_append_left w hm)]
  rw [parseQuote_cons (l0 ++ '\n' :: l1) l0 (trimRight l1) [] hlines2]
  exact parseQuoteLines_congr l0 l1 (trimRight l1) fun i => by
    conv_lhs => rw [hw]
    exact fieldValue_append_ws (trimRight l1) w hws i

/-- Witness for C8 (amended): a three-line response parses identically to
its first two lines. -/
theorem claim8_firstTwoLines_witness :
    parseQuote "Symbol,Date,Time,Close\nN/A,N/A,N/A,N/A\nextra,line".toList
      = parseQuote ("Symbol,Date,Time,Close".toList ++ '\n' :: "N/A,N/A,N/A,N/A".toList) :=
  claim8_firstTwoLines _ "Symbol,Date,Time,Close".toList "N/A,N/A,N/A,N/A".toList
    ["extra,line".toList] (by decide) (by decide)

/-- Counterexample for C8 as stated: with a blank second line, the full text
parses differently from its first two lines ("a" and "", joined "a\n"),
because trimming collapses the truncated text to a single line. -/
theorem claim8_counterexample :
    linesOf "a\n\nb".toList = ["a".toList, [], "b".toList] ∧
    parseQuote "a\n\nb".toList = .error .missingColumn ∧
    parseQuote "a\n".toList = .error .malformedStructure ∧
    parseQuote "a\n\n".toList = .error .malformedStructure ∧
    parseQuote "a\n\nb".toList ≠ parseQuote "a\n".toList := by decide
